import Mathlib

/-!
Verification of the PTY bridge of the `o-az/sandbox` repository.

The repository ships three revisions of the WebSocket-to-shell bridge:

* `src/scripts/websocket.ts` — node-pty bridge (uWebSockets), no output
  buffering;
* `src/unnamed/part_004`    — node-pty bridge (crossws) with the
  timer/ceiling/input-priority output-buffering policy;
* `src/unnamed/part_017`    — Bun pipe-fallback bridge (`script`-wrapped
  shell) with the resize echo-suppression queue.

This file gives a shallow embedding of the data model and handlers of those
three files and proves or refutes the frozen specification claims about them.
JavaScript strings and byte arrays are both modelled as `List Char` (all the
constants involved are ASCII, where the `TextEncoder`/`TextDecoder` pair used
by the Bun bridge is the identity up to the byte/char reading); JSON numbers
are modelled as `Int` (the claims under study only concern sign tests and
integer defaults).
-/

namespace Sandbox

/-! ## JSON values and control-message parsing

All three bridge revisions share `parseControlMessage` verbatim: a frame is a
control message only when `JSON.parse` succeeds, the result is truthy and of
`typeof` "object", and its `type` field is one of the three known literals.
A `Json` value models the possible results of `JSON.parse`; an inbound text
frame carries the raw text plus the oracle result of `JSON.parse` on it
(`none` models a thrown parse error). Objects produced by `JSON.parse` have
unique keys (later duplicates overwrite earlier ones), so field lookup is the
associative-list lookup.
-/

inductive Json where
  | null : Json
  | bool (b : Bool) : Json
  | num (n : Int) : Json
  | str (s : String) : Json
  | arr (elems : List Json) : Json
  | obj (fields : List (String × Json)) : Json

/-- JavaScript truthiness of a `JSON.parse` result: `null`, `false`, `0` and
the empty string are falsy, everything else (including `[]` and `{}`) is
truthy. -/
def Json.truthy : Json → Bool
  | .null => false
  | .bool b => b
  | .num n => n != 0
  | .str s => s != ""
  | .arr _ => true
  | .obj _ => true

/-- Whether `typeof v` is the string "object": true for `null`, arrays and
plain objects, false for booleans, numbers and strings. -/
def Json.typeofObject : Json → Bool
  | .null => true
  | .bool _ => false
  | .num _ => false
  | .str _ => false
  | .arr _ => true
  | .obj _ => true

/-- Property access `v[k]` on a parsed JSON value: only plain objects have
own data properties; a missing key reads as `undefined` (`none`). -/
def Json.getField : Json → String → Option Json
  | .obj fields, k => fields.lookup k
  | _, _ => none

/-- Reads a field that the bridge code guards with
`typeof x === 'number' && ...`: only a JSON number passes, any other value
(or a missing field) behaves like the absent case. -/
def Json.getNumField (v : Json) (k : String) : Option Int :=
  match v.getField k with
  | some (.num n) => some n
  | _ => none

/-- Reads a field that the bridge code guards with `typeof x === 'string'`. -/
def Json.getStrField (v : Json) (k : String) : Option String :=
  match v.getField k with
  | some (.str s) => some s
  | _ => none

/-- The `ControlMessage` union of all three bridge revisions. Geometry
fields keep their optional character: `init` takes them as hints, `resize`
is supposed to carry both (the code does not validate that it does). -/
inductive ControlMessage where
  | init (cols rows : Option Int) (shell : Option String) : ControlMessage
  | resize (cols rows : Option Int) : ControlMessage
  | ping (id : Option String) : ControlMessage
deriving DecidableEq, Repr

/-- `parseControlMessage` as written identically in all three bridge files:
`JSON.parse` failure, falsy results, non-objects and objects whose `type`
field is not one of the three known literals all yield `undefined`
(modelled by `none`); the argument is the oracle result of `JSON.parse`. -/
def parseControlMessage (parsed : Option Json) : Option ControlMessage :=
  match parsed with
  | none => none
  | some v =>
    if ¬ v.truthy then none
    else if ¬ v.typeofObject then none
    else
      match v.getField "type" with
      | some (.str "init") =>
          some (.init (v.getNumField "cols") (v.getNumField "rows")
            (v.getStrField "shell"))
      | some (.str "resize") =>
          some (.resize (v.getNumField "cols") (v.getNumField "rows"))
      | some (.str "ping") => some (.ping (v.getStrField "id"))
      | _ => none

/-- An inbound WebSocket text frame: the raw text plus the result of
`JSON.parse` on it (`none` when parsing throws). -/
structure InFrame where
  raw : String
  parsed : Option Json

/-- The characterisation the specification gives of control frames: a frame
parses as JSON to a non-null object whose `type` field is one of the three
known literals. -/
def isKnownControlJson (parsed : Option Json) : Prop :=
  ∃ fields t, parsed = some (.obj fields)
    ∧ (Json.obj fields).getField "type" = some (.str t)
    ∧ (t = "init" ∨ t = "resize" ∨ t = "ping")

end Sandbox

namespace Sandbox.NodePty

/-! ## The node-pty bridge message handler

Shared model of the `message` hooks of `src/scripts/websocket.ts` and
`src/unnamed/part_004`, which are line-for-line identical in their state
machine: `ping` is answered in any state, the first `init` spawns a PTY and
moves the session to `ready` (a second `init` is ignored), `resize` is
ignored while `idle` and guarded by `cols <= 0 || rows <= 0` while `ready`,
and every non-control frame is written verbatim to the PTY when `ready` and
dropped with a warning when `idle`. Only the effects that the claims talk
about are recorded. The `userInputPending` flag and the output pump of
`part_004` are modelled separately (`Sandbox.Pump`).
-/

/-- Terminal geometry fields of a `PtySession`. They are `Option Int`
because a `resize` frame missing a field assigns `undefined` to them in the
JavaScript code. -/
structure Geom where
  cols : Option Int
  rows : Option Int
deriving DecidableEq, Repr

/-- Session state of a connection, as in both node-pty bridge files. -/
inductive HState where
  | idle : HState
  | ready (g : Geom) : HState
deriving DecidableEq, Repr

def HState.isReady : HState → Bool
  | .idle => false
  | .ready _ => true

/-- Effects of one `message` invocation that the claims observe. -/
inductive Effect where
  | sendPong (id : Option String) : Effect
  | spawn (cols rows : Int) : Effect
  | write (raw : String) : Effect
  | resizeNative (cols rows : Option Int) : Effect
  | warnDrop : Effect
deriving DecidableEq, Repr

/-- `DEFAULT_COLS` selection in `spawnPty`:
`typeof options.cols === 'number' && options.cols > 0 ? options.cols : 120`. -/
def spawnCols : Option Int → Int
  | some n => if 0 < n then n else 120
  | none => 120

/-- `DEFAULT_ROWS` selection in `spawnPty`, default 32. -/
def spawnRows : Option Int → Int
  | some n => if 0 < n then n else 32
  | none => 32

/-- The JavaScript comparison `x <= 0` for a value that is either a number
or `undefined`: `undefined <= 0` evaluates to `false` (NaN comparison). -/
def jsLeZero : Option Int → Bool
  | none => false
  | some n => n ≤ 0

/-- `resizePty` of both node-pty bridge files: returns unchanged when
`cols <= 0 || rows <= 0`, otherwise stores the received values (even an
absent one, which stores `undefined`) and issues the native resize. -/
def resizePty (g : Geom) (cols rows : Option Int) : Geom × List Effect :=
  if jsLeZero cols || jsLeZero rows then (g, [])
  else ({ cols := cols, rows := rows }, [.resizeNative cols rows])

/-- The `message` hook of both node-pty bridge files. -/
def message (st : HState) (f : InFrame) : HState × List Effect :=
  match parseControlMessage f.parsed with
  | some (.ping id) => (st, [.sendPong id])
  | some (.init c r _sh) =>
    match st with
    | .ready _ => (st, [])
    | .idle =>
      let cols := spawnCols c
      let rows := spawnRows r
      (.ready { cols := some cols, rows := some rows }, [.spawn cols rows])
  | some (.resize c r) =>
    match st with
    | .idle => (st, [])
    | .ready g =>
      let (g', eff) := resizePty g c r
      (.ready g', eff)
  | none =>
    match st with
    | .idle => (st, [.warnDrop])
    | .ready _ => (st, [.write f.raw])

/-- Runs the handler over a sequence of inbound frames, accumulating
effects. -/
def runMsgs (st : HState) : List InFrame → HState × List Effect
  | [] => (st, [])
  | f :: fs =>
    let (st', eff) := message st f
    let (st'', effs) := runMsgs st' fs
    (st'', eff ++ effs)

/-- Number of processes spawned in an effect list. -/
def countSpawn (effs : List Effect) : Nat :=
  (effs.filter fun e => match e with | .spawn _ _ => true | _ => false).length

/-- Whether a frame parses as an `init` control message. -/
def isInitB (f : InFrame) : Bool :=
  match parseControlMessage f.parsed with
  | some (.init _ _ _) => true
  | _ => false

/-- Positive-integer geometry of a session state: while `ready`, both
`cols` and `rows` hold positive numbers. -/
def geomPositive : HState → Prop
  | .idle => True
  | .ready g => ∃ cp rp, g.cols = some cp ∧ 0 < cp ∧ g.rows = some rp ∧ 0 < rp

/-- A frame whose `resize` reading (when it has one) carries both numeric
fields, as the wire protocol of the specification prescribes. -/
def resizeWellFormed (f : InFrame) : Prop :=
  ∀ c r, parseControlMessage f.parsed = some (.resize c r) →
    c ≠ none ∧ r ≠ none

end Sandbox.NodePty

namespace Sandbox.Pump

/-! ## The part_004 output pump

Model of the `pty.onData` / `flushOutput` / `pty.onExit` callbacks and of
the raw-input branch of the `message` hook of `src/unnamed/part_004`, for a
single ready session. The session owns

* `outputBuffer` (a JavaScript string, modelled as `List Char`),
* `userInputPending` (set on every raw input write),
* the `flushTimer` field (`timerSet` models field non-nullness), and
* the WebSocket `readyState` of the peer (1 = OPEN; `peer.close` moves it
  to 2).

`live` is a ghost count of the `setTimeout` callbacks that are scheduled
and neither fired nor cancelled. `setTimeout` increments it; the timer
event decrements it when it fires; `clearTimeout(session.flushTimer)`
inside `flushOutput` decrements it unless `flushOutput` is running as the
fired callback itself, in which case the stored handle is the spent one and
`clearTimeout` is a no-op. In every state the code reaches, the stored
handle is the only timer ever live, so this is exactly the JavaScript
behaviour.

Events are the session callbacks that touch this state: a `data` chunk from
the PTY, the flush timer firing, a raw input frame from the socket
(`userInputPending = true` plus `pty.write`), and process exit.
-/

/-- `BUFFER_TIMEOUT_MS` of part_004. -/
def BUFFER_TIMEOUT_MS : Nat := 3

/-- `BUFFER_MAX_SIZE` of part_004 (256 KiB). -/
def BUFFER_MAX_SIZE : Nat := 262144

/-- Per-connection mutable state of a ready part_004 session. -/
structure Conn where
  readyState : Nat
  buffer : List Char
  pending : Bool
  timerSet : Bool
  live : Nat
deriving DecidableEq, Repr

/-- A freshly spawned session on an open socket: empty buffer, no pending
input, no timer. -/
def fresh : Conn :=
  { readyState := 1, buffer := [], pending := false, timerSet := false,
    live := 0 }

/-- Frames the pump can emit on the socket. -/
inductive WireFrame where
  | out (bytes : List Char) : WireFrame
  | exitFrame (exitCode signal : Int) : WireFrame
  | close (code : Nat) : WireFrame
deriving DecidableEq, Repr

/-- Events hitting a ready session. -/
inductive Event where
  | data (chunk : List Char) : Event
  | timer : Event
  | input (bytes : List Char) : Event
  | exit (exitCode signal : Int) : Event
deriving DecidableEq, Repr

def Event.isExit : Event → Bool
  | .exit _ _ => true
  | _ => false

/-- `flushOutput` of part_004: early return on an empty buffer, send the
buffer only when the socket is OPEN, always clear the buffer, and clear the
timer field (cancelling the stored callback when it is still scheduled;
`fired` marks the call made by that callback itself, whose handle is
already spent). -/
def flushOutput (fired : Bool) (c : Conn) : Conn × List WireFrame :=
  if c.buffer = [] then (c, [])
  else
    let frames := if c.readyState = 1 then [WireFrame.out c.buffer] else []
    if c.timerSet then
      ({ c with
          buffer := [], timerSet := false,
          live := if fired then c.live else c.live - 1 }, frames)
    else ({ c with buffer := [] }, frames)

/-- `pty.onData`: append the chunk, flush at once when input is pending or
the buffer exceeds `BUFFER_MAX_SIZE` (clearing the pending flag), otherwise
arm the flush timer when none is armed. -/
def onData (c : Conn) (chunk : List Char) : Conn × List WireFrame :=
  let c := { c with buffer := c.buffer ++ chunk }
  if c.pending || decide (BUFFER_MAX_SIZE < c.buffer.length) then
    flushOutput false { c with pending := false }
  else if c.timerSet then (c, [])
  else ({ c with timerSet := true, live := c.live + 1 }, [])

/-- The flush timer firing: only a scheduled, uncancelled callback can
fire; it runs `flushOutput`. -/
def onTimer (c : Conn) : Conn × List WireFrame :=
  if c.live = 0 then (c, [])
  else flushOutput true { c with live := c.live - 1 }

/-- The raw-input branch of the `message` hook: set `userInputPending` and
write the bytes to the PTY (the write itself leaves this state alone). -/
def onInput (c : Conn) (_bytes : List Char) : Conn × List WireFrame :=
  ({ c with pending := true }, [])

/-- `pty.onExit`: flush the remaining buffer, then, when the socket is
still OPEN, send the `process-exit` frame and close with code 1000. -/
def onExit (c : Conn) (exitCode signal : Int) : Conn × List WireFrame :=
  let (c, frames) := flushOutput false c
  if c.readyState = 1 then
    ({ c with readyState := 2 },
      frames ++ [WireFrame.exitFrame exitCode signal, WireFrame.close 1000])
  else (c, frames)

/-- One event step of the session. -/
def step (c : Conn) : Event → Conn × List WireFrame
  | .data chunk => onData c chunk
  | .timer => onTimer c
  | .input bytes => onInput c bytes
  | .exit code sig => onExit c code sig

/-- Runs a trace of events, accumulating the frames sent on the socket. -/
def run (c : Conn) : List Event → Conn × List WireFrame
  | [] => (c, [])
  | e :: es =>
    let (c', fr) := step c e
    let (c'', frs) := run c' es
    (c'', fr ++ frs)

/-- Concatenation of the raw output bytes of a frame list. -/
def sentConcat (frames : List WireFrame) : List Char :=
  (frames.filterMap fun f =>
    match f with
    | .out b => some b
    | _ => none).join

/-- Concatenation of the chunks the process emitted in a trace. -/
def chunksConcat (tr : List Event) : List Char :=
  (tr.filterMap fun e =>
    match e with
    | .data chunk => some chunk
    | _ => none).join

/-- The inductive invariant of a reachable session state (given that data
chunks from the PTY are nonempty): the timer field is set exactly when the
buffer is nonempty, the ghost count of live timers matches the field, the
retained buffer never exceeds the ceiling, and the socket is OPEN or has
been closed by the exit handler. -/
def Inv (c : Conn) : Prop :=
  (c.timerSet = true ↔ c.buffer ≠ [])
    ∧ c.live = (if c.timerSet then 1 else 0)
    ∧ c.buffer.length ≤ BUFFER_MAX_SIZE
    ∧ (c.readyState = 1 ∨ c.readyState = 2)

end Sandbox.Pump

namespace Sandbox.Bun

/-! ## The Bun pipe-fallback bridge (src/unnamed/part_017)

This revision spawns `script -qf -c <shell> /dev/null` with plain pipes, so
`resize` is synthesized by writing `stty cols C rows R\r` into stdin
(`applyResize`), queueing byte-exact suppressions for the command text and
its line terminators, stripping them from subsequent output
(`stripSuppressed`) and scrubbing residual echo per chunk
(`removeResizeEcho`). Bytes are modelled as `List Char` (ASCII reading of
the `TextEncoder`/`TextDecoder` pair). JavaScript regular-expression
operations of `removeResizeEcho` are compiled by hand into explicit
backtracking scanners that follow the semantics of the two literal patterns
in the source.
-/

open Sandbox.NodePty (spawnCols spawnRows)

/-- One queued suppression: the byte sequence to strip and how many of its
leading bytes have already been matched against output. -/
structure Supp where
  bytes : List Char
  index : Nat
deriving DecidableEq, Repr

/-- `queueSuppression`: push a fresh suppression for `text`. -/
def queueSuppression (q : List Supp) (text : List Char) : List Supp :=
  q ++ [⟨text, 0⟩]

/-- Result of one `stripSuppressed` call, instrumented with the ghost list
of the suppression byte sequences that completed during the call (in
completion order); the source computes only `queue` and `out`. -/
structure StripResult where
  queue : List Supp
  out : List Char
  completed : List (List Char)
deriving DecidableEq, Repr

/-- The `stripSuppressed` loop of part_017, one comparison per step:
a byte matching the head suppression at its current index is consumed
(completing the suppression removes it from the queue); a mismatch after a
partial match re-emits the matched prefix and discards the suppression,
retrying the byte against the next one; a mismatch at index 0 merely
discards the head suppression; with an empty queue bytes pass through. -/
def stripRun : List Supp → List Char → StripResult
  | q, [] => ⟨q, [], []⟩
  | [], b :: rest =>
    let r := stripRun [] rest
    ⟨[], b :: r.out, r.completed⟩
  | s :: q, b :: rest =>
    if s.bytes.get? s.index = some b then
      if s.index + 1 = s.bytes.length then
        let r := stripRun q rest
        ⟨r.queue, r.out, s.bytes :: r.completed⟩
      else stripRun (⟨s.bytes, s.index + 1⟩ :: q) rest
    else if 0 < s.index then
      let r := stripRun q (b :: rest)
      ⟨r.queue, s.bytes.take s.index ++ r.out, r.completed⟩
    else stripRun q (b :: rest)
  termination_by q data => (data.length, q.length)

/-- `stripSuppressed` as the source exposes it: the mutated queue and the
emitted bytes. -/
def stripSuppressed (q : List Supp) (data : List Char) : List Supp × List Char :=
  ((stripRun q data).queue, (stripRun q data).out)

/-- `String.prototype.includes` on char lists. -/
def containsSeq (needle : List Char) : List Char → Bool
  | [] => needle.isEmpty
  | c :: t => needle.isPrefixOf (c :: t) || containsSeq needle t

/-- JavaScript `\s` on the ASCII range. -/
def isWs (c : Char) : Bool :=
  c = ' ' || c = '\t' || c = '\n' || c = '\r' || c = '\x0b' || c = '\x0c'

/-- Length of the leading run of decimal digits. -/
def countLeadDigits : List Char → Nat
  | [] => 0
  | c :: t => if c.isDigit then countLeadDigits t + 1 else 0

/-- Length of the leading run of whitespace. -/
def countLeadWs : List Char → Nat
  | [] => 0
  | c :: t => if isWs c then countLeadWs t + 1 else 0

/-- Matches the mandatory core of the resize-echo pattern at the head of
`s`: literal `stty cols `, digits, literal ` rows `, digits, then an
optional line break, returning the matched length. -/
def matchCore (s : List Char) : Option Nat :=
  if ("stty cols ".data).isPrefixOf s then
    let s1 := s.drop 10
    let d1 := countLeadDigits s1
    if d1 = 0 then none
    else
      let s2 := s1.drop d1
      if (" rows ".data).isPrefixOf s2 then
        let s3 := s2.drop 6
        let d2 := countLeadDigits s3
        if d2 = 0 then none
        else
          let s4 := s3.drop d2
          let tailLen :=
            if ['\r', '\n'].isPrefixOf s4 then 2
            else if ['\n'].isPrefixOf s4 then 1
            else 0
          some (10 + d1 + 6 + d2 + tailLen)
      else none
  else none

/-- After a `#`, greedy `\s*` with backtracking from `j` whitespace
characters down to zero, then the core. -/
def tryWsCoreAux (t : List Char) : Nat → Option Nat
  | 0 => matchCore t
  | j + 1 =>
    match matchCore (t.drop (j + 1)) with
    | some n => some (j + 1 + n)
    | none => tryWsCoreAux t j

/-- Greedy `\s*` then the core, starting from the longest whitespace run. -/
def tryWsCore (t : List Char) : Option Nat :=
  tryWsCoreAux t (countLeadWs t)

/-- The optional prompt prefix `[^\r\n]*?#\s*` followed by the core: a lazy
scan over non-line-break characters for a `#`, trying the continuation at
each candidate. -/
def tryHash : List Char → Option Nat
  | [] => none
  | c :: t =>
    if c = '\r' || c = '\n' then none
    else
      match (if c = '#' then tryWsCore t else none) with
      | some n => some (1 + n)
      | none =>
        match tryHash t with
        | some n => some (1 + n)
        | none => none

/-- The optional group tried before its absence, as the greedy `(?:...)?`
does. -/
def matchPre2 (s : List Char) : Option Nat :=
  match tryHash s with
  | some n => some n
  | none => matchCore s

/-- A match attempt of the whole pattern
`(?:\r?\n)?(?:[^\r\n]*?#\s*)?stty cols \d+ rows \d+(?:\r?\n)?` at the head
of `s`, in the backtracking order of the JavaScript engine. -/
def matchAt (s : List Char) : Option Nat :=
  match s with
  | '\r' :: '\n' :: t =>
    (match matchPre2 t with
     | some n => some (2 + n)
     | none => matchPre2 s)
  | '\n' :: t =>
    (match matchPre2 t with
     | some n => some (1 + n)
     | none => matchPre2 s)
  | _ => matchPre2 s

/-- Global replacement of the pattern with the empty string: leftmost match
first, search resuming after each match. -/
def regexRemoveAll : List Char → List Char
  | [] => []
  | c :: t =>
    match matchAt (c :: t) with
    | some n => regexRemoveAll (t.drop (n - 1))
    | none => c :: regexRemoveAll t
  termination_by l => l.length
  decreasing_by
    · simp only [List.length_cons]
      have := List.length_drop (n - 1) t
      omega
    · simp [List.length_cons]

/-- `String.prototype.trim` on the ASCII range. -/
def trimChars (s : List Char) : List Char :=
  ((s.dropWhile isWs).reverse.dropWhile isWs).reverse

/-- The test `/^bash-[^#]+#\s*$/` applied to the trimmed line: after
`bash-`, at least one non-`#` character, then a single final `#`. -/
def promptTest (line : List Char) : Bool :=
  let t := trimChars line
  ("bash-".data).isPrefixOf t &&
    (let rest := t.drop 5
     decide (2 ≤ rest.length) && rest.count '#' = 1 && rest.getLast? = some '#')

/-- `String.prototype.split` on `/\r?\n/`. -/
def splitLines : List Char → List (List Char)
  | [] => [[]]
  | '\r' :: '\n' :: t => [] :: splitLines t
  | '\n' :: t => [] :: splitLines t
  | c :: t =>
    match splitLines t with
    | [] => [[c]]
    | l :: ls => (c :: l) :: ls

/-- The prompt-collapsing loop of `removeResizeEcho`: blank lines are kept
only singly and only after a non-blank line; a prompt-only line is dropped
when it opens the output or repeats a prompt-only line. -/
def promptFilterLoop (filtered : List (List Char)) :
    List (List Char) → List (List Char)
  | [] => filtered
  | line :: rest =>
    if trimChars line = [] then
      match filtered.getLast? with
      | none => promptFilterLoop filtered rest
      | some last =>
        if trimChars last = [] then promptFilterLoop filtered rest
        else promptFilterLoop (filtered ++ [[]]) rest
    else if promptTest line &&
        (match filtered.getLast? with
         | none => true
         | some last => promptTest last) then
      promptFilterLoop filtered rest
    else promptFilterLoop (filtered ++ [line]) rest

/-- `Array.prototype.join` with a newline separator. -/
def joinNl : List (List Char) → List Char
  | [] => []
  | [l] => l
  | l :: ls => l ++ '\n' :: joinNl ls

/-- Length of the leading run of newlines. -/
def countLeadNl : List Char → Nat
  | '\n' :: t => countLeadNl t + 1
  | _ => 0

/-- The final `replace(/\n{3,}/g, '\n\n')`: runs of three or more newlines
collapse to two. -/
def collapseNl : List Char → List Char
  | [] => []
  | c :: t =>
    if c = '\n' then
      let k := countLeadNl (c :: t)
      (if 3 ≤ k then ['\n', '\n'] else List.replicate k '\n')
        ++ collapseNl (t.drop (k - 1))
    else c :: collapseNl t
  termination_by l => l.length
  decreasing_by
    · simp only [List.length_cons]
      have := List.length_drop (countLeadNl (c :: t) - 1) t
      omega
    · simp [List.length_cons]

/-- `removeResizeEcho` of part_017: untouched unless the chunk mentions
`stty cols`; otherwise the pattern is removed globally, and when a `bash-`
prompt remains, blank and repeated prompt lines are collapsed. -/
def removeResizeEcho (data : List Char) : List Char :=
  if data.isEmpty then data
  else if ¬ containsSeq ("stty cols".data) data then data
  else
    let cleaned := regexRemoveAll data
    if ¬ containsSeq ("bash-".data) cleaned then cleaned
    else collapseNl (joinNl (promptFilterLoop [] (splitLines cleaned)))

/-- JavaScript template interpolation of a number-or-`undefined` value. -/
def numToJsString : Option Int → List Char
  | none => "undefined".data
  | some n => (toString n).data

/-- The synthesized command text `stty cols C rows R` of `applyResize`. -/
def sttyCmd (cols rows : Option Int) : List Char :=
  "stty cols ".data ++ numToJsString cols ++ " rows ".data ++ numToJsString rows

/-- A ready part_017 shell session: geometry plus the suppression queue
shared with the output pumps. -/
structure BunSess where
  cols : Option Int
  rows : Option Int
  suppressions : List Supp
deriving DecidableEq, Repr

/-- Effects of the part_017 handler that the claims observe. -/
inductive BunEffect where
  | sendPong (id : Option String) : BunEffect
  | spawnProc (cols rows : Int) : BunEffect
  | write (bytes : List Char) : BunEffect
  | warnDrop : BunEffect
deriving DecidableEq, Repr

/-- `applyResize` of part_017: store the received geometry without any
positivity guard, write the synthesized `stty` command (plus `\r`) to the
shell stdin, and queue suppressions for the command text, `\r` and `\n`. -/
def applyResize (s : BunSess) (cols rows : Option Int) :
    BunSess × List BunEffect :=
  let cmd := sttyCmd cols rows
  ({ cols := cols, rows := rows,
     suppressions :=
       queueSuppression
         (queueSuppression (queueSuppression s.suppressions cmd) ['\r'])
         ['\n'] },
   [.write (cmd ++ ['\r'])])

/-- `spawnShell` of part_017 restricted to the state the claims observe:
geometry defaults as in the node-pty bridges, an empty suppression queue,
then the initial `applyResize` the source performs on the fresh session. -/
def spawnShell (cols rows : Option Int) : BunSess × List BunEffect :=
  let c := spawnCols cols
  let r := spawnRows rows
  let base : BunSess := { cols := some c, rows := some r, suppressions := [] }
  let (s, eff) := applyResize base (some c) (some r)
  (s, .spawnProc c r :: eff)

/-- Session state of a part_017 connection. -/
inductive BunState where
  | idle : BunState
  | ready (s : BunSess) : BunState
deriving DecidableEq, Repr

/-- An inbound frame of the Bun server: text frames carry the raw text and
the `JSON.parse` oracle, binary frames carry bytes. -/
inductive BunFrame where
  | text (raw : String) (parsed : Option Json) : BunFrame
  | binary (bytes : List Char) : BunFrame

/-- The `message` hook of part_017: text frames are parsed as control
messages and otherwise silently dropped (`if (!payload) return`); only
binary frames reach the shell stdin as raw input. -/
def message (st : BunState) (f : BunFrame) : BunState × List BunEffect :=
  match f with
  | .text _raw parsed =>
    match parseControlMessage parsed with
    | none => (st, [])
    | some (.ping id) => (st, [.sendPong id])
    | some (.init c r _sh) =>
      match st with
      | .ready _ => (st, [])
      | .idle =>
        let (s, eff) := spawnShell c r
        (.ready s, eff)
    | some (.resize c r) =>
      match st with
      | .idle => (st, [])
      | .ready s =>
        let (s', eff) := applyResize s c r
        (.ready s', eff)
  | .binary bytes =>
    match st with
    | .idle => (st, [.warnDrop])
    | .ready _ => (st, [.write bytes])

/-- Events seen by a ready part_017 session stream state: an output chunk
read from the shell, or a resize extending the suppression queue. -/
inductive StreamEvent where
  | chunk (data : List Char) : StreamEvent
  | resize (cols rows : Option Int) : StreamEvent
deriving DecidableEq, Repr

/-- One stream-state step: a chunk is filtered through `stripSuppressed`
then `removeResizeEcho` and the remainder is delivered to the client; a
resize queues its three suppressions (its stdin write is not delivered). -/
def streamStep (q : List Supp) : StreamEvent → List Supp × List Char
  | .chunk d =>
    let r := stripRun q d
    (r.queue, removeResizeEcho r.out)
  | .resize c r =>
    let cmd := sttyCmd c r
    (queueSuppression (queueSuppression (queueSuppression q cmd) ['\r'])
      ['\n'], [])

/-- Runs stream events, concatenating the bytes delivered to the client. -/
def streamRun (q : List Supp) : List StreamEvent → List Supp × List Char
  | [] => (q, [])
  | e :: es =>
    let (q', d) := streamStep q e
    let (q'', ds) := streamRun q' es
    (q'', d ++ ds)

/-- The matched prefix held by the head suppression of a queue. -/
def pendPrefix : List Supp → List Char
  | [] => []
  | s :: _ => s.bytes.take s.index

/-- Queue well-formedness maintained by the code: only the head suppression
can have consumed bytes. -/
def TailZero : List Supp → Prop
  | [] => True
  | _ :: q => ∀ s ∈ q, s.index = 0

/-- `Dissect whole out completed pending` says `whole` splits, in order,
into segments that are either emitted (concatenating to `out`) or dropped
as one of the `completed` sequences (in order), with `pending` as the final
retained segment. -/
inductive Dissect : List Char → List Char → List (List Char) → List Char → Prop
  | base (pending : List Char) : Dissect pending [] [] pending
  | emit (a : Char) {w o : List Char} {cs : List (List Char)} {p : List Char} :
      Dissect w o cs p → Dissect (a :: w) (a :: o) cs p
  | drop (m : List Char) {w o : List Char} {cs : List (List Char)}
      {p : List Char} :
      Dissect w o cs p → Dissect (m ++ w) o (m :: cs) p

end Sandbox.Bun

namespace Sandbox.Pump

/-! ## Lemmas about the part_004 output pump -/

theorem inv_fresh : Inv fresh := by
  simp [Inv, fresh, BUFFER_MAX_SIZE]

theorem inv_step (c : Conn) (e : Event) (hc : Inv c)
    (hne : ∀ chunk, e = .data chunk → chunk ≠ []) :
    Inv (step c e).1 := by
  obtain ⟨rs, buf, pend, ts, live⟩ := c
  obtain ⟨h1, h2, h3, h4⟩ := hc
  have hB : BUFFER_MAX_SIZE = 262144 := rfl
  simp only at h1 h2 h3 h4
  cases ts with
  | false =>
    have hbuf : buf = [] := by
      by_contra hb
      simp [hb] at h1
    have hlive : live = 0 := by simpa using h2
    subst hbuf hlive
    cases e with
    | data chunk =>
      have hchunk : chunk ≠ [] := hne chunk rfl
      simp only [step]
      cases hpf : (pend || decide (BUFFER_MAX_SIZE < chunk.length)) with
      | true =>
        have hstep : onData ⟨rs, [], pend, false, 0⟩ chunk
            = (⟨rs, [], false, false, 0⟩,
               if rs = 1 then [WireFrame.out chunk] else []) := by
          simp only [onData, List.nil_append]
          rw [hpf]
          simp [flushOutput, hchunk]
        rw [hstep]
        exact ⟨by simp, by simp, by simp [hB], h4⟩
      | false =>
        have hstep : onData ⟨rs, [], pend, false, 0⟩ chunk
            = (⟨rs, chunk, pend, true, 1⟩, []) := by
          simp only [onData, List.nil_append]
          rw [hpf]
          simp [flushOutput]
        rw [hstep]
        refine ⟨by simpa using hchunk, by simp, ?_, h4⟩
        have hnl : ¬ BUFFER_MAX_SIZE < chunk.length := by
          intro hlt
          simp at hpf
          omega
        simpa using Nat.le_of_not_lt hnl
    | timer =>
      simp only [step, onTimer, if_pos rfl]
      exact ⟨by simp, by simp, by simp [hB], h4⟩
    | input bytes =>
      simp only [step, onInput]
      exact ⟨by simp, by simp, by simp [hB], h4⟩
    | exit code sig =>
      rcases Decidable.em (rs = 1) with h | h
      · subst h
        have hstep : onExit ⟨1, [], pend, false, 0⟩ code sig
            = (⟨2, [], pend, false, 0⟩,
               [WireFrame.exitFrame code sig, WireFrame.close 1000]) := by
          simp [onExit, flushOutput]
        simp only [step, hstep]
        exact ⟨by simp, by simp, by simp [hB], by simp⟩
      · have hstep : onExit ⟨rs, [], pend, false, 0⟩ code sig
            = (⟨rs, [], pend, false, 0⟩, []) := by
          simp [onExit, flushOutput, h]
        simp only [step, hstep]
        exact ⟨by simp, by simp, by simp [hB], h4⟩
  | true =>
    have hbuf : buf ≠ [] := by simpa using h1
    have hlive : live = 1 := by simpa using h2
    subst hlive
    cases e with
    | data chunk =>
      have hchunk : chunk ≠ [] := hne chunk rfl
      have hne2 : buf ++ chunk ≠ [] := by simp [hbuf]
      simp only [step]
      cases hpf : (pend || decide (BUFFER_MAX_SIZE < (buf ++ chunk).length)) with
      | true =>
        have hstep : onData ⟨rs, buf, pend, true, 1⟩ chunk
            = (⟨rs, [], false, false, 0⟩,
               if rs = 1 then [WireFrame.out (buf ++ chunk)] else []) := by
          simp only [onData]
          rw [hpf]
          simp [flushOutput, hne2]
        rw [hstep]
        exact ⟨by simp, by simp, by simp [hB], h4⟩
      | false =>
        have hstep : onData ⟨rs, buf, pend, true, 1⟩ chunk
            = (⟨rs, buf ++ chunk, pend, true, 1⟩, []) := by
          simp only [onData]
          rw [hpf]
          simp [flushOutput]
        rw [hstep]
        refine ⟨by simpa using hne2, by simp, ?_, h4⟩
        have hnl : ¬ BUFFER_MAX_SIZE < (buf ++ chunk).length := by
          intro hlt
          simp at hpf
          simp [List.length_append] at hlt
          omega
        simpa using Nat.le_of_not_lt hnl
    | timer =>
      have hstep : onTimer ⟨rs, buf, pend, true, 1⟩
          = (⟨rs, [], pend, false, 0⟩,
             if rs = 1 then [WireFrame.out buf] else []) := by
        simp [onTimer, flushOutput, hbuf]
      simp only [step, hstep]
      exact ⟨by simp, by simp, by simp [hB], h4⟩
    | input bytes =>
      simp only [step, onInput]
      exact ⟨by simpa using h1, by simp, by simpa using h3, h4⟩
    | exit code sig =>
      rcases Decidable.em (rs = 1) with h | h
      · subst h
        have hstep : onExit ⟨1, buf, pend, true, 1⟩ code sig
            = (⟨2, [], pend, false, 0⟩,
               [WireFrame.out buf, WireFrame.exitFrame code sig,
                WireFrame.close 1000]) := by
          simp [onExit, flushOutput, hbuf]
        simp only [step, hstep]
        exact ⟨by simp, by simp, by simp [hB], by simp⟩
      · have hstep : onExit ⟨rs, buf, pend, true, 1⟩ code sig
            = (⟨rs, [], pend, false, 0⟩, []) := by
          simp [onExit, flushOutput, h, hbuf]
        simp only [step, hstep]
        exact ⟨by simp, by simp, by simp [hB], h4⟩

theorem run_append (c : Conn) (t1 t2 : List Event) :
    run c (t1 ++ t2)
      = ((run (run c t1).1 t2).1, (run c t1).2 ++ (run (run c t1).1 t2).2) := by
  induction t1 generalizing c with
  | nil => simp [run]
  | cons e es ih =>
    simp only [List.cons_append, run]
    rw [show es.append t2 = es ++ t2 from rfl, ih (step c e).1]
    simp [List.append_assoc]

theorem inv_run (c : Conn) (tr : List Event) (hc : Inv c)
    (hne : ∀ chunk, Event.data chunk ∈ tr → chunk ≠ []) :
    Inv (run c tr).1 := by
  induction tr generalizing c with
  | nil => simpa [run] using hc
  | cons e es ih =>
    simp only [run]
    exact ih (step c e).1
      (inv_step c e hc (fun chunk h => hne chunk (by simp [h])))
      (fun chunk h => hne chunk (by simp [h]))

theorem rs_step (c : Conn) (e : Event) (he : e.isExit = false) :
    (step c e).1.readyState = c.readyState := by
  cases e with
  | data chunk =>
    simp only [step, onData, flushOutput]
    split_ifs <;> rfl
  | timer =>
    simp only [step, onTimer, flushOutput]
    split_ifs <;> rfl
  | input bytes => rfl
  | exit code sig => simp [Event.isExit] at he

theorem rs_run (c : Conn) (tr : List Event)
    (he : ∀ e ∈ tr, e.isExit = false) :
    (run c tr).1.readyState = c.readyState := by
  induction tr generalizing c with
  | nil => rfl
  | cons e es ih =>
    simp only [run]
    rw [ih (step c e).1 (fun e' h => he e' (by simp [h]))]
    exact rs_step c e (he e (by simp))

theorem step_conservation (c : Conn) (e : Event) (hrs : c.readyState = 1)
    (he : e.isExit = false) :
    sentConcat (step c e).2 ++ (step c e).1.buffer
      = c.buffer ++ (match e with | .data chunk => chunk | _ => []) := by
  cases e with
  | data chunk =>
    simp only [step, onData, flushOutput]
    split_ifs with hf hb <;>
      simp_all [sentConcat]
  | timer =>
    simp only [step, onTimer, flushOutput]
    split_ifs <;> simp_all [sentConcat]
  | input bytes => simp [step, onInput, sentConcat]
  | exit code sig => simp [Event.isExit] at he

theorem conservation (c : Conn) (tr : List Event) (hrs : c.readyState = 1)
    (he : ∀ e ∈ tr, e.isExit = false) :
    sentConcat (run c tr).2 ++ (run c tr).1.buffer
      = c.buffer ++ chunksConcat tr := by
  induction tr generalizing c with
  | nil => simp [run, sentConcat, chunksConcat]
  | cons e es ih =>
    have he1 : e.isExit = false := he e (by simp)
    have hes : ∀ e' ∈ es, e'.isExit = false := fun e' h => he e' (by simp [h])
    have hrs' : (step c e).1.readyState = 1 := by rw [rs_step c e he1]; exact hrs
    simp only [run]
    have hsc : sentConcat ((step c e).2 ++ (run (step c e).1 es).2)
        = sentConcat (step c e).2 ++ sentConcat (run (step c e).1 es).2 := by
      simp [sentConcat]
    rw [hsc, List.append_assoc, ih (step c e).1 hrs' hes]
    rw [← List.append_assoc, step_conservation c e hrs he1]
    cases e with
    | data chunk => simp [chunksConcat]
    | timer => simp [chunksConcat]
    | input bytes => simp [chunksConcat]
    | exit code sig => simp [Event.isExit] at he1

theorem step_out_only (c : Conn) (e : Event) (he : e.isExit = false) :
    ∀ f ∈ (step c e).2, ∃ b, f = WireFrame.out b := by
  cases e with
  | data chunk =>
    simp only [step, onData, flushOutput]
    split_ifs <;> intro f hf <;> simp_all <;> exact ⟨_, hf⟩
  | timer =>
    simp only [step, onTimer, flushOutput]
    split_ifs <;> intro f hf <;> simp_all <;> exact ⟨_, hf⟩
  | input bytes => simp [step, onInput]
  | exit code sig => simp [Event.isExit] at he

theorem run_out_only (c : Conn) (tr : List Event)
    (he : ∀ e ∈ tr, e.isExit = false) :
    ∀ f ∈ (run c tr).2, ∃ b, f = WireFrame.out b := by
  induction tr generalizing c with
  | nil => simp [run]
  | cons e es ih =>
    simp only [run]
    intro f hf
    rcases List.mem_append.mp (by simpa using hf) with h | h
    · exact step_out_only c e (he e (by simp)) f h
    · exact ih (step c e).1 (fun e' h' => he e' (by simp [h'])) f h

theorem step_silent (c : Conn) (e : Event) (hrs : c.readyState ≠ 1) :
    (step c e).2 = [] ∧ (step c e).1.readyState = c.readyState := by
  cases e with
  | data chunk =>
    simp only [step, onData, flushOutput]
    split_ifs <;> simp_all
  | timer =>
    simp only [step, onTimer, flushOutput]
    split_ifs <;> simp_all
  | input bytes => simp [step, onInput]
  | exit code sig =>
    simp only [step, onExit, flushOutput]
    split_ifs <;> simp_all

theorem run_silent (c : Conn) (tr : List Event) (hrs : c.readyState ≠ 1) :
    (run c tr).2 = [] := by
  induction tr generalizing c with
  | nil => simp [run]
  | cons e es ih =>
    simp only [run]
    obtain ⟨h1, h2⟩ := step_silent c e hrs
    simp [h1, ih (step c e).1 (by rw [h2]; exact hrs)]

theorem exit_step_open (c : Conn) (code sig : Int) (hrs : c.readyState = 1) :
    (step c (.exit code sig)).2
      = (if c.buffer = [] then [] else [WireFrame.out c.buffer])
        ++ [WireFrame.exitFrame code sig, WireFrame.close 1000]
    ∧ (step c (.exit code sig)).1.readyState = 2 := by
  simp only [step, onExit, flushOutput]
  rcases Decidable.em (c.buffer = []) with hb | hb
  · simp [hb, hrs]
  · split_ifs <;> simp_all

/-- Claim C1: for a session whose WebSocket stays open (no exit event),
the concatenation of the raw frames sent to the socket plus the bytes still
buffered equals the concatenation of the chunks the process emitted, in
order, with no duplication or loss; and one further timer firing delivers
exactly that concatenation. -/
theorem c1_order_preservation (tr : List Event)
    (hnoexit : ∀ e ∈ tr, e.isExit = false)
    (hne : ∀ chunk, Event.data chunk ∈ tr → chunk ≠ []) :
    sentConcat (run fresh tr).2 ++ (run fresh tr).1.buffer = chunksConcat tr
    ∧ sentConcat (run fresh (tr ++ [Event.timer])).2 = chunksConcat tr := by
  have h1 : sentConcat (run fresh tr).2 ++ (run fresh tr).1.buffer
      = chunksConcat tr := by
    simpa [fresh] using conservation fresh tr rfl hnoexit
  refine ⟨h1, ?_⟩
  have hinv : Inv (run fresh tr).1 := inv_run fresh tr inv_fresh hne
  have hrs : (run fresh tr).1.readyState = 1 := rs_run fresh tr hnoexit
  obtain ⟨i1, i2, i3, i4⟩ := hinv
  rw [run_append]
  set c1 := (run fresh tr).1 with hc1
  have hsc : sentConcat ((run fresh tr).2 ++ (run c1 [Event.timer]).2)
      = sentConcat (run fresh tr).2 ++ sentConcat (run c1 [Event.timer]).2 := by
    simp [sentConcat]
  rw [hsc]
  rcases Decidable.em (c1.buffer = []) with hb | hb
  · have hts : c1.timerSet = false := by
      cases hts : c1.timerSet with
      | true => exact absurd (i1.mp hts) (by simp [hb])
      | false => rfl
    have hlive : c1.live = 0 := by simp [hts] at i2; exact i2
    have : (run c1 [Event.timer]).2 = [] := by
      simp [run, step, onTimer, hlive]
    rw [this]
    have hz : sentConcat ([] : List WireFrame) = [] := by simp [sentConcat]
    rw [hz, List.append_nil]
    simpa [hb] using h1
  · have hts : c1.timerSet = true := i1.mpr hb
    have hlive : c1.live = 1 := by simp [hts] at i2; exact i2
    have : (run c1 [Event.timer]).2 = [WireFrame.out c1.buffer] := by
      simp [run, step, onTimer, hlive, flushOutput, hb, hrs, hts]
    rw [this]
    have : sentConcat [WireFrame.out c1.buffer] = c1.buffer := by
      simp [sentConcat]
    rw [this]
    exact h1

/-- Claim C7: on process exit with the socket open, the bridge emits the
flush of any buffered output, then exactly one `process-exit` frame with
the exit code and signal, then a close with code 1000; every frame sent
earlier is a raw output frame, and nothing at all is sent afterwards. -/
theorem c7_exit_framing (t1 t2 : List Event) (code sig : Int)
    (hnoexit : ∀ e ∈ t1, e.isExit = false) :
    (run fresh (t1 ++ (Event.exit code sig :: t2))).2
      = (run fresh t1).2
        ++ ((if (run fresh t1).1.buffer = [] then []
             else [WireFrame.out (run fresh t1).1.buffer])
            ++ [WireFrame.exitFrame code sig, WireFrame.close 1000])
    ∧ ∀ f ∈ (run fresh t1).2, ∃ b, f = WireFrame.out b := by
  have hrs : (run fresh t1).1.readyState = 1 := rs_run fresh t1 hnoexit
  refine ⟨?_, run_out_only fresh t1 hnoexit⟩
  rw [run_append]
  set c1 := (run fresh t1).1 with hc1
  have hstep := exit_step_open c1 code sig hrs
  have hrun : run c1 (Event.exit code sig :: t2)
      = ((run (step c1 (.exit code sig)).1 t2).1,
         (step c1 (.exit code sig)).2 ++ (run (step c1 (.exit code sig)).1 t2).2) := by
    simp [run]
  rw [hrun]
  have hsilent : (run (step c1 (.exit code sig)).1 t2).2 = [] := by
    apply run_silent
    rw [hstep.2]
    omega
  simp [hsilent, hstep.1]

/-- Amended claim C4: the flush ceiling is 262144 bytes and the timer
interval constant is 3 ms; on any trace of nonempty chunks the buffer
retained between events never exceeds the ceiling (the flush fires within
the data event that pushes it past the ceiling), at most one flush timer is
scheduled at any time, and a timer is armed exactly when the buffer is
nonempty. The original wording — a flush happens before the buffered bytes
exceed the ceiling — is refuted by the counterexample, in which a single
flushed frame carries more than the ceiling. -/
theorem c4_amended (tr : List Event)
    (hne : ∀ chunk, Event.data chunk ∈ tr → chunk ≠ []) :
    BUFFER_TIMEOUT_MS = 3 ∧ BUFFER_MAX_SIZE = 262144
    ∧ (run fresh tr).1.buffer.length ≤ BUFFER_MAX_SIZE
    ∧ (run fresh tr).1.live ≤ 1
    ∧ ((run fresh tr).1.buffer ≠ [] ↔ (run fresh tr).1.timerSet = true) := by
  obtain ⟨i1, i2, i3, i4⟩ := inv_run fresh tr inv_fresh hne
  refine ⟨rfl, rfl, i3, ?_, i1.symm⟩
  rw [i2]
  split_ifs <;> omega

theorem onData_fresh_big (L : List Char) (h : BUFFER_MAX_SIZE < L.length) :
    onData fresh L = (⟨1, [], false, false, 0⟩, [WireFrame.out L]) := by
  have hne : L ≠ [] := by
    intro hq
    rw [hq] at h
    simp [BUFFER_MAX_SIZE] at h
  simp only [onData, fresh, List.nil_append]
  rw [if_pos (by simp [h])]
  simp [flushOutput, hne]

/-- Counterexample to claim C4 as stated: a single 262145-byte chunk into
a fresh session is flushed as one frame of 262145 bytes, so the buffered
bytes exceeded the 262144-byte ceiling before any flush happened. -/
theorem c4_ceiling_counterexample :
    (onData fresh (List.replicate 262145 'a')).2
      = [WireFrame.out (List.replicate 262145 'a')]
    ∧ 262144 < (List.replicate 262145 'a').length
    ∧ BUFFER_MAX_SIZE = 262144 := by
  have hlen : (List.replicate 262145 'a').length = 262145 :=
    List.length_replicate _ _
  have hbig : BUFFER_MAX_SIZE < (List.replicate 262145 'a').length := by
    rw [hlen]
    decide
  refine ⟨?_, by rw [hlen]; decide, rfl⟩
  rw [onData_fresh_big _ hbig]

/-- Amended claim C5: the `userInputPending` flag is set on every raw
input write, and an output chunk arriving while it is set is flushed
immediately (the whole buffer, not held for the timer) with the flag
cleared. The flag is cleared only by data-event flushes; timer- and
exit-triggered flushes leave it set, refuting the original *cleared on
every flush* (see the counterexample). -/
theorem c5_amended :
    (∀ (c : Conn) (bytes : List Char),
      (onInput c bytes).1.pending = true ∧ (onInput c bytes).2 = [])
    ∧ (∀ (c : Conn) (chunk : List Char),
        c.pending = true → c.readyState = 1 → c.buffer ++ chunk ≠ [] →
        (onData c chunk).2 = [WireFrame.out (c.buffer ++ chunk)]
        ∧ (onData c chunk).1.pending = false
        ∧ (onData c chunk).1.buffer = []) := by
  refine ⟨fun c bytes => ⟨rfl, rfl⟩, fun c chunk hp hrs hne => ?_⟩
  simp only [onData]
  rw [if_pos (by simp [hp])]
  simp [flushOutput, hne, hrs]
  split_ifs <;> simp

/-- Counterexample to claim C5 as stated: after buffered output, an input
write, and a timer firing, the timer flush emits the buffer yet leaves
`userInputPending` set — the flag is not cleared on every flush. -/
theorem c5_flag_counterexample :
    (step ((run fresh [Event.data ['a'], Event.input ['b']]).1) Event.timer).2
      = [WireFrame.out ['a']]
    ∧ (step ((run fresh [Event.data ['a'], Event.input ['b']]).1)
        Event.timer).1.pending = true := by
  decide

/-- Witness for C1 at a concrete data-input-data trace. -/
theorem c1_order_preservation_witness :
    sentConcat (run fresh
        [Event.data ['x'], Event.input ['y'], Event.data ['z']]).2
      ++ (run fresh
        [Event.data ['x'], Event.input ['y'], Event.data ['z']]).1.buffer
      = chunksConcat [Event.data ['x'], Event.input ['y'], Event.data ['z']]
    ∧ sentConcat (run fresh
        ([Event.data ['x'], Event.input ['y'], Event.data ['z']]
          ++ [Event.timer])).2
      = chunksConcat [Event.data ['x'], Event.input ['y'], Event.data ['z']] :=
  c1_order_preservation [Event.data ['x'], Event.input ['y'], Event.data ['z']]
    (by decide)
    (by
      intro chunk h
      rcases List.mem_cons.mp h with h1 | h
      · cases h1
        decide
      rcases List.mem_cons.mp h with h1 | h
      · cases h1
      rcases List.mem_cons.mp h with h1 | h
      · cases h1
        decide
      · exact absurd h (List.not_mem_nil _))

/-- Witness for the amended C4 at a concrete data-timer trace. -/
theorem c4_amended_witness :
    BUFFER_TIMEOUT_MS = 3 ∧ BUFFER_MAX_SIZE = 262144
    ∧ (run fresh [Event.data ['x'], Event.timer]).1.buffer.length
        ≤ BUFFER_MAX_SIZE
    ∧ (run fresh [Event.data ['x'], Event.timer]).1.live ≤ 1
    ∧ ((run fresh [Event.data ['x'], Event.timer]).1.buffer ≠ []
        ↔ (run fresh [Event.data ['x'], Event.timer]).1.timerSet = true) :=
  c4_amended [Event.data ['x'], Event.timer]
    (by
      intro chunk h
      rcases List.mem_cons.mp h with h1 | h
      · cases h1
        decide
      rcases List.mem_cons.mp h with h1 | h
      · cases h1
      · exact absurd h (List.not_mem_nil _))

/-- Witness for the amended C5 at a concrete pending session. -/
theorem c5_amended_witness :
    ((onInput fresh ['k']).1.pending = true ∧ (onInput fresh ['k']).2 = [])
    ∧ ((onData ⟨1, ['p'], true, true, 1⟩ ['q']).2
        = [WireFrame.out (Conn.buffer ⟨1, ['p'], true, true, 1⟩ ++ ['q'])]
      ∧ (onData ⟨1, ['p'], true, true, 1⟩ ['q']).1.pending = false
      ∧ (onData ⟨1, ['p'], true, true, 1⟩ ['q']).1.buffer = []) :=
  ⟨c5_amended.1 fresh ['k'],
   c5_amended.2 ⟨1, ['p'], true, true, 1⟩ ['q'] rfl rfl (by decide)⟩

/-- Witness for C7 at a concrete trace with one exit. -/
theorem c7_exit_framing_witness :
    (run fresh ([Event.data ['h']] ++ (Event.exit 0 0 :: [Event.data ['q']]))).2
      = (run fresh [Event.data ['h']]).2
        ++ ((if (run fresh [Event.data ['h']]).1.buffer = [] then []
             else [WireFrame.out (run fresh [Event.data ['h']]).1.buffer])
            ++ [WireFrame.exitFrame 0 0, WireFrame.close 1000])
    ∧ ∀ f ∈ (run fresh [Event.data ['h']]).2, ∃ b, f = WireFrame.out b :=
  c7_exit_framing [Event.data ['h']] [Event.data ['q']] 0 0 (by decide)


end Sandbox.Pump

namespace Sandbox.NodePty

/-! ## Lemmas about the node-pty message handler -/

theorem countSpawn_append (a b : List Effect) :
    countSpawn (a ++ b) = countSpawn a + countSpawn b := by
  simp [countSpawn, List.filter_append]

theorem message_ready (g : Geom) (f : InFrame) :
    (message (.ready g) f).1.isReady = true
    ∧ countSpawn (message (.ready g) f).2 = 0 := by
  simp only [message]
  rcases hp : parseControlMessage f.parsed with _ | cm
  · simp [HState.isReady, countSpawn]
  · cases cm with
    | init c r sh => simp [HState.isReady, countSpawn]
    | resize c r =>
      simp only [resizePty]
      split_ifs <;> simp [HState.isReady, countSpawn]
    | ping id => simp [HState.isReady, countSpawn]

theorem runMsgs_ready (st : HState) (fs : List InFrame)
    (hst : st.isReady = true) :
    (runMsgs st fs).1.isReady = true
    ∧ countSpawn (runMsgs st fs).2 = 0 := by
  induction fs generalizing st with
  | nil => exact ⟨hst, rfl⟩
  | cons f fs ih =>
    cases st with
    | idle => simp [HState.isReady] at hst
    | ready g =>
      simp only [runMsgs]
      obtain ⟨h1, h2⟩ := message_ready g f
      obtain ⟨h3, h4⟩ := ih (message (.ready g) f).1 h1
      refine ⟨h3, ?_⟩
      rw [countSpawn_append, h2, h4]

/-- Claim C2: over any inbound frame sequence from the initial `idle`
state, exactly one PTY is spawned when some frame parses as `init` and none
otherwise; a ready session never leaves `ready`; a second `init` received
while `ready` spawns nothing and leaves the state untouched. -/
theorem c2_single_spawn :
    (∀ fs : List InFrame,
      countSpawn (runMsgs .idle fs).2 = (if fs.any isInitB then 1 else 0)
      ∧ (runMsgs .idle fs).1.isReady = fs.any isInitB)
    ∧ (∀ (st : HState) (f : InFrame), st.isReady = true →
        (message st f).1.isReady = true)
    ∧ (∀ (g : Geom) (f : InFrame) (c r : Option Int) (sh : Option String),
        parseControlMessage f.parsed = some (.init c r sh) →
        message (.ready g) f = (.ready g, [])) := by
  refine ⟨?_, ?_, ?_⟩
  · intro fs
    induction fs with
    | nil => simp [runMsgs, countSpawn, HState.isReady]
    | cons f fs ih =>
      simp only [runMsgs, List.any_cons]
      rcases hp : parseControlMessage f.parsed with _ | cm
      · have hini : isInitB f = false := by simp [isInitB, hp]
        have hstep : message .idle f = (.idle, [.warnDrop]) := by
          simp [message, hp]
        rw [hstep]
        simp only [hini, Bool.false_or]
        rw [countSpawn_append]
        have hcw : countSpawn [Effect.warnDrop] = 0 := rfl
        simp only [hcw, Nat.zero_add]
        exact ih
      · cases cm with
        | init c r sh =>
          have hini : isInitB f = true := by simp [isInitB, hp]
          have hstep : message .idle f
              = (.ready { cols := some (spawnCols c), rows := some (spawnRows r) },
                 [.spawn (spawnCols c) (spawnRows r)]) := by
            simp [message, hp]
          rw [hstep]
          simp only [hini, Bool.true_or]
          rw [countSpawn_append]
          obtain ⟨h3, h4⟩ := runMsgs_ready
            (.ready { cols := some (spawnCols c), rows := some (spawnRows r) })
            fs (by simp [HState.isReady])
          rw [h4]
          exact ⟨rfl, h3⟩
        | resize c r =>
          have hini : isInitB f = false := by simp [isInitB, hp]
          have hstep : message .idle f = (.idle, []) := by
            simp [message, hp]
          rw [hstep]
          simp only [hini, Bool.false_or]
          rw [countSpawn_append]
          have hcw : countSpawn ([] : List Effect) = 0 := rfl
          simp only [hcw, Nat.zero_add]
          exact ih
        | ping id =>
          have hini : isInitB f = false := by simp [isInitB, hp]
          have hstep : message .idle f = (.idle, [.sendPong id]) := by
            simp [message, hp]
          rw [hstep]
          simp only [hini, Bool.false_or]
          rw [countSpawn_append]
          have hcw : countSpawn [Effect.sendPong id] = 0 := rfl
          simp only [hcw, Nat.zero_add]
          exact ih
  · intro st f hst
    cases st with
    | idle => simp [HState.isReady] at hst
    | ready g => exact (message_ready g f).1
  · intro g f c r sh hp
    simp [message, hp]

/-- Witness for C2 at a concrete two-`init` frame sequence. -/
theorem c2_single_spawn_witness :
    (countSpawn (runMsgs .idle
        [⟨"\x7b\"type\":\"init\"\x7d", some (.obj [("type", .str "init")])⟩,
         ⟨"\x7b\"type\":\"init\"\x7d", some (.obj [("type", .str "init")])⟩]).2
      = (if ([⟨"\x7b\"type\":\"init\"\x7d", some (.obj [("type", .str "init")])⟩,
              ⟨"\x7b\"type\":\"init\"\x7d",
                some (.obj [("type", .str "init")])⟩] : List InFrame).any isInitB
         then 1 else 0))
    ∧ message (.ready ⟨some 120, some 32⟩)
        ⟨"\x7b\"type\":\"init\"\x7d", some (.obj [("type", .str "init")])⟩
      = (.ready ⟨some 120, some 32⟩, []) :=
  ⟨(c2_single_spawn.1
      [⟨"\x7b\"type\":\"init\"\x7d", some (.obj [("type", .str "init")])⟩,
       ⟨"\x7b\"type\":\"init\"\x7d", some (.obj [("type", .str "init")])⟩]).1,
   c2_single_spawn.2.2 ⟨some 120, some 32⟩
     ⟨"\x7b\"type\":\"init\"\x7d", some (.obj [("type", .str "init")])⟩
     none none none rfl⟩

/-- Claim C3: while `idle`, a raw (non-control) frame is dropped with a
warning only — no write, no spawn, no close, state unchanged — and a
`resize` received while `idle` is ignored entirely. -/
theorem c3_idle_gating (f : InFrame) :
    (parseControlMessage f.parsed = none →
      message .idle f = (.idle, [.warnDrop]))
    ∧ (∀ c r, parseControlMessage f.parsed = some (.resize c r) →
      message .idle f = (.idle, [])) := by
  constructor
  · intro hp
    simp [message, hp]
  · intro c r hp
    simp [message, hp]

/-- Witness for C3 at a malformed text frame and a concrete idle resize. -/
theorem c3_idle_gating_witness :
    message .idle (⟨"ls -la\r", none⟩ : InFrame) = (.idle, [.warnDrop])
    ∧ message .idle
        (⟨"\x7b\"type\":\"resize\",\"cols\":80,\"rows\":24\x7d",
          some (.obj [("type", .str "resize"), ("cols", .num 80),
            ("rows", .num 24)])⟩ : InFrame)
      = (.idle, []) :=
  ⟨(c3_idle_gating ⟨"ls -la\r", none⟩).1 rfl,
   (c3_idle_gating
      ⟨"\x7b\"type\":\"resize\",\"cols\":80,\"rows\":24\x7d",
        some (.obj [("type", .str "resize"), ("cols", .num 80),
          ("rows", .num 24)])⟩).2
     (some 80) (some 24) rfl⟩

end Sandbox.NodePty

namespace Sandbox.NodePty

/-! ## Geometry positivity in the node-pty bridges -/

theorem spawnCols_pos (c : Option Int) : 0 < spawnCols c := by
  cases c with
  | none => simp [spawnCols]
  | some n =>
    simp only [spawnCols]
    split_ifs with h
    · exact h
    · omega

theorem spawnRows_pos (r : Option Int) : 0 < spawnRows r := by
  cases r with
  | none => simp [spawnRows]
  | some n =>
    simp only [spawnRows]
    split_ifs with h
    · exact h
    · omega

theorem geom_step (st : HState) (f : InFrame) (hwf : resizeWellFormed f)
    (hg : geomPositive st) : geomPositive (message st f).1 := by
  rcases hp : parseControlMessage f.parsed with _ | cm
  · cases st with
    | idle => simpa [message, hp, geomPositive] using hg
    | ready g => simpa [message, hp, geomPositive] using hg
  · cases cm with
    | init c r sh =>
      cases st with
      | idle =>
        simp only [message, hp]
        exact ⟨spawnCols c, spawnRows r, rfl, spawnCols_pos c, rfl,
          spawnRows_pos r⟩
      | ready g => simpa [message, hp, geomPositive] using hg
    | resize c r =>
      cases st with
      | idle => simpa [message, hp, geomPositive] using hg
      | ready g =>
        obtain ⟨hc, hr⟩ := hwf c r hp
        rcases hcv : c with _ | ci
        · exact absurd hcv hc
        rcases hrv : r with _ | ri
        · exact absurd hrv hr
        simp only [message, hp, hcv, hrv, resizePty, jsLeZero]
        split_ifs with hle
        · simpa [geomPositive] using hg
        · simp only [Bool.or_eq_true, decide_eq_true_eq] at hle
          push_neg at hle
          exact ⟨ci, ri, rfl, by omega, rfl, by omega⟩
    | ping id =>
      cases st with
      | idle => simpa [message, hp, geomPositive] using hg
      | ready g => simpa [message, hp, geomPositive] using hg

/-- Amended claim C8 for the node-pty bridges: along any frame sequence
whose `resize` frames carry both numeric fields, every ready state holds
positive `cols` and `rows`; a `resize` with a non-positive field is fully
ignored; `init` replaces missing or non-positive geometry hints with the
120 by 32 defaults. The pipe-fallback bridge violates the original claim
(see the counterexample), which forces restricting it to these bridges and
to well-formed resize frames. -/
theorem c8_amended_geometry :
    (∀ fs : List InFrame, (∀ f ∈ fs, resizeWellFormed f) →
      geomPositive (runMsgs .idle fs).1)
    ∧ (∀ (g : Geom) (c r : Int), (c ≤ 0 ∨ r ≤ 0) →
        resizePty g (some c) (some r) = (g, []))
    ∧ spawnCols none = 120 ∧ spawnRows none = 32
    ∧ (∀ n : Int, n ≤ 0 →
        spawnCols (some n) = 120 ∧ spawnRows (some n) = 32) := by
  refine ⟨?_, ?_, rfl, rfl, ?_⟩
  · have hgen : ∀ (fs : List InFrame) (st : HState),
        (∀ f ∈ fs, resizeWellFormed f) → geomPositive st →
        geomPositive (runMsgs st fs).1 := by
      intro fs
      induction fs with
      | nil => exact fun st _ hg => hg
      | cons f fs ih =>
        intro st hwf hg
        simp only [runMsgs]
        exact ih (message st f).1 (fun f' h => hwf f' (by simp [h]))
          (geom_step st f (hwf f (by simp)) hg)
    exact fun fs hwf => hgen fs .idle hwf trivial
  · intro g c r h
    simp only [resizePty, jsLeZero]
    rw [if_pos]
    simp only [Bool.or_eq_true, decide_eq_true_eq]
    omega
  · intro n h
    constructor
    · simp only [spawnCols]
      rw [if_neg]
      omega
    · simp only [spawnRows]
      rw [if_neg]
      omega

/-- Witness for the amended C8 at a concrete init-then-resize sequence. -/
theorem c8_amended_geometry_witness :
    geomPositive (runMsgs .idle
      [⟨"\x7b\"type\":\"init\"\x7d", some (.obj [("type", .str "init")])⟩,
       ⟨"\x7b\"type\":\"resize\",\"cols\":100,\"rows\":30\x7d",
         some (.obj [("type", .str "resize"), ("cols", .num 100),
           ("rows", .num 30)])⟩]).1
    ∧ resizePty ⟨some 120, some 32⟩ (some 0) (some 30)
      = (⟨some 120, some 32⟩, [])
    ∧ spawnCols (some (-5)) = 120 ∧ spawnRows (some (-5)) = 32 :=
  ⟨c8_amended_geometry.1 _
     (by
       intro f hf
       rcases List.mem_cons.mp hf with h1 | hf
       · subst h1
         intro c r hp
         simp [parseControlMessage, Json.truthy, Json.typeofObject,
           Json.getField, List.lookup] at hp
       rcases List.mem_cons.mp hf with h1 | hf
       · subst h1
         intro c r hp
         simp only [parseControlMessage, Json.truthy, Json.typeofObject,
           Json.getField, Json.getNumField, List.lookup] at hp
         constructor
         · intro hc
           rw [hc] at hp
           simp_all
         · intro hr
           rw [hr] at hp
           simp_all
       · exact absurd hf (List.not_mem_nil f)),
   c8_amended_geometry.2.1 ⟨some 120, some 32⟩ 0 30 (Or.inl (by omega)),
   (c8_amended_geometry.2.2.2.2 (-5) (by omega)).1,
   (c8_amended_geometry.2.2.2.2 (-5) (by omega)).2⟩

end Sandbox.NodePty

namespace Sandbox

/-! ## Control-frame classification (claim C6) -/

theorem parse_bool (b : Bool) :
    parseControlMessage (some (.bool b)) = none := by
  cases b <;> rfl

theorem parse_num (n : Int) :
    parseControlMessage (some (.num n)) = none := by
  by_cases h : n = 0 <;>
    simp [parseControlMessage, Json.truthy, Json.typeofObject, h]

theorem parse_str (s : String) :
    parseControlMessage (some (.str s)) = none := by
  by_cases h : s = "" <;>
    simp [parseControlMessage, Json.truthy, Json.typeofObject, h]

theorem parse_arr (xs : List Json) :
    parseControlMessage (some (.arr xs)) = none := by
  simp [parseControlMessage, Json.truthy, Json.typeofObject, Json.getField]

theorem parse_obj_type (fields : List (String × Json)) :
    parseControlMessage (some (.obj fields))
      = match (Json.obj fields).getField "type" with
        | some (.str "init") =>
            some (.init ((Json.obj fields).getNumField "cols")
              ((Json.obj fields).getNumField "rows")
              ((Json.obj fields).getStrField "shell"))
        | some (.str "resize") =>
            some (.resize ((Json.obj fields).getNumField "cols")
              ((Json.obj fields).getNumField "rows"))
        | some (.str "ping") =>
            some (.ping ((Json.obj fields).getStrField "id"))
        | _ => none := by
  simp [parseControlMessage, Json.truthy, Json.typeofObject]

/-- Amended claim C6: in every bridge revision a frame is handled as a
control message exactly when it parses as JSON to a non-null object whose
`type` field is `init`, `resize` or `ping`; in the node-pty bridges every
other frame received while `ready` is written verbatim to the PTY as raw
input. (The Bun bridge diverges on the second half: it drops non-control
text frames; see the counterexample.) -/
theorem c6_amended_classification (p : Option Json) :
    ((parseControlMessage p).isSome = true ↔ isKnownControlJson p)
    ∧ (∀ (g : NodePty.Geom) (raw : String), parseControlMessage p = none →
        NodePty.message (.ready g) ⟨raw, p⟩ = (.ready g, [.write raw])) := by
  refine ⟨⟨?_, ?_⟩, ?_⟩
  · intro h
    match p with
    | none => simp [parseControlMessage] at h
    | some .null => simp [parseControlMessage, Json.truthy] at h
    | some (.bool b) =>
      rw [parse_bool] at h
      simp at h
    | some (.num n) =>
      rw [parse_num] at h
      simp at h
    | some (.str s) =>
      rw [parse_str] at h
      simp at h
    | some (.arr xs) =>
      rw [parse_arr] at h
      simp at h
    | some (.obj fields) =>
      rw [parse_obj_type] at h
      rcases hl : (Json.obj fields).getField "type" with _ | j
      · rw [hl] at h
        simp at h
      · cases j with
        | str t =>
          by_cases h1 : t = "init"
          · exact ⟨fields, t, rfl, by rw [hl, h1], Or.inl h1⟩
          by_cases h2 : t = "resize"
          · exact ⟨fields, t, rfl, by rw [hl, h2], Or.inr (Or.inl h2)⟩
          by_cases h3 : t = "ping"
          · exact ⟨fields, t, rfl, by rw [hl, h3], Or.inr (Or.inr h3)⟩
          · rw [hl] at h
            simp [h1, h2, h3] at h
        | null =>
          rw [hl] at h
          simp at h
        | bool b =>
          rw [hl] at h
          simp at h
        | num n =>
          rw [hl] at h
          simp at h
        | arr xs =>
          rw [hl] at h
          simp at h
        | obj fs =>
          rw [hl] at h
          simp at h
  · rintro ⟨fields, t, rfl, hl, ht⟩
    rw [parse_obj_type, hl]
    rcases ht with rfl | rfl | rfl <;> simp
  · intro g raw hp
    simp [NodePty.message, hp]

/-- Witness for the amended C6 at a ping object and a malformed raw
frame. -/
theorem c6_amended_classification_witness :
    ((parseControlMessage (some (.obj [("type", Json.str "ping")]))).isSome
        = true
      ↔ isKnownControlJson (some (.obj [("type", Json.str "ping")])))
    ∧ NodePty.message (.ready ⟨some 120, some 32⟩)
        ⟨"echo hi\r", none⟩
      = (.ready ⟨some 120, some 32⟩, [.write "echo hi\r"]) :=
  ⟨(c6_amended_classification (some (.obj [("type", Json.str "ping")]))).1,
   (c6_amended_classification none).2 ⟨some 120, some 32⟩ "echo hi\r" rfl⟩

/-- Counterexample to claim C6 as stated: the Bun bridge receives a
non-control text frame (`JSON.parse` throws on `hello`) while `ready` and
emits no effect at all — in particular no raw-input write to the process;
the frame is silently dropped, contradicting the claim that every
non-control frame is written to the process and never dropped. -/
theorem c6_drop_counterexample :
    parseControlMessage none = none
    ∧ Bun.message (.ready ⟨some 120, some 32, []⟩) (.text "hello" none)
      = (.ready ⟨some 120, some 32, []⟩, []) :=
  ⟨rfl, rfl⟩

end Sandbox

namespace Sandbox.Bun

/-! ## Counterexample to claim C8 on the pipe-fallback bridge -/

/-- Counterexample to claim C8 as stated: in part_017, a `resize` control
message carrying `cols = 0, rows = 0` reaches `applyResize`, which has no
positivity guard: the geometry becomes zero and a synthesized `stty cols 0
rows 0` command is written to the process stdin, contradicting both parts
of the claim for this bridge revision. -/
theorem c8_resize_counterexample :
    message (.ready ⟨some 120, some 32, []⟩)
        (.text "\x7b\"type\":\"resize\",\"cols\":0,\"rows\":0\x7d"
          (some (.obj [("type", .str "resize"), ("cols", .num 0),
            ("rows", .num 0)])))
      = (.ready ⟨some 0, some 0,
          [⟨"stty cols 0 rows 0".data, 0⟩, ⟨['\r'], 0⟩, ⟨['\n'], 0⟩]⟩,
         [.write ("stty cols 0 rows 0\r".data)]) := by
  decide

end Sandbox.Bun

namespace Sandbox.Bun

/-! ## Exactness of the suppression stripper (claim C10) -/

theorem stripRun_nil_queue (d : List Char) : stripRun [] d = ⟨[], d, []⟩ := by
  induction d with
  | nil => simp [stripRun]
  | cons b rest ih => simp [stripRun, ih]

theorem dissect_prepend (xs : List Char) {w o : List Char}
    {cs : List (List Char)} {p : List Char} (h : Dissect w o cs p) :
    Dissect (xs ++ w) (xs ++ o) cs p := by
  induction xs with
  | nil => simpa using h
  | cons a t ih => exact Dissect.emit a ih

theorem pend_zero (q : List Supp) (h : ∀ s ∈ q, s.index = 0) :
    pendPrefix q = [] := by
  cases q with
  | nil => rfl
  | cons s t =>
    have : s.index = 0 := h s (by simp)
    simp [pendPrefix, this]

theorem tailZero_of_all (q : List Supp) (h : ∀ s ∈ q, s.index = 0) :
    TailZero q := by
  cases q with
  | nil => trivial
  | cons s t => exact fun s' hs' => h s' (by simp [hs'])

theorem take_succ_get {l : List Char} {i : Nat} {b : Char}
    (h1 : l.get? i = some b) :
    l.take (i + 1) = l.take i ++ [b] := by
  rw [List.get?_eq_getElem?] at h1
  rw [List.take_succ, h1]
  rfl

theorem take_append_single {l : List Char} {i : Nat} {b : Char}
    (h1 : l.get? i = some b) (h2 : i + 1 = l.length) :
    l = l.take i ++ [b] := by
  have ht : l.take (i + 1) = l.take i ++ [b] := take_succ_get h1
  rw [h2, List.take_length] at ht
  exact ht

/-- Claim C10: one `stripSuppressed` call dissects the pending prefix plus
the input chunk, in order, into emitted segments (concatenating to the
output), complete queued byte sequences (the ghost `completed` list, an
ordered selection from the queue), and the final pending prefix retained in
the queue; the queue well-formedness is preserved. -/
theorem c10_strip_exact (q : List Supp) (data : List Char)
    (hz : TailZero q) :
    Dissect (pendPrefix q ++ data) (stripSuppressed q data).2
        (stripRun q data).completed (pendPrefix (stripSuppressed q data).1)
    ∧ List.Sublist (stripRun q data).completed (q.map Supp.bytes)
    ∧ TailZero (stripSuppressed q data).1 := by
  simp only [stripSuppressed]
  revert hz
  induction q, data using stripRun.induct with
  | case1 q =>
    intro hz
    refine ⟨?_, by simp [stripRun], by simpa [stripRun] using hz⟩
    simpa [stripRun] using Dissect.base (pendPrefix q)
  | case2 b rest ih =>
    intro _
    obtain ⟨ihd, ihs, ihz⟩ := ih trivial
    rw [stripRun_nil_queue] at ihd ihs ihz
    simp only [stripRun, stripRun_nil_queue]
    refine ⟨?_, by simp, trivial⟩
    simp only [pendPrefix, List.nil_append]
    simpa [pendPrefix] using Dissect.emit b (by simpa [pendPrefix] using ihd)
  | case3 s q b rest h1 h2 ih =>
    intro hz
    have hq0 : ∀ s' ∈ q, s'.index = 0 := hz
    obtain ⟨ihd, ihs, ihz⟩ := ih (tailZero_of_all q hq0)
    simp only [stripRun, h1, h2, if_pos, if_true]
    refine ⟨?_, ?_, ihz⟩
    · have hw : pendPrefix (s :: q) ++ b :: rest = s.bytes ++ rest := by
        simp only [pendPrefix]
        rw [show s.bytes.take s.index ++ b :: rest
            = (s.bytes.take s.index ++ [b]) ++ rest by simp]
        rw [← take_append_single h1 h2]
      rw [hw]
      have hpq : pendPrefix q = [] := pend_zero q hq0
      rw [hpq] at ihd
      exact Dissect.drop s.bytes (by simpa using ihd)
    · exact List.Sublist.cons₂ s.bytes ihs
  | case4 s q b rest h1 h2 ih =>
    intro hz
    have hz' : TailZero ({ bytes := s.bytes, index := s.index + 1 } :: q) := hz
    obtain ⟨ihd, ihs, ihz⟩ := ih hz'
    simp only [stripRun]
    rw [if_pos h1, if_neg h2]
    refine ⟨?_, by simpa using ihs, ihz⟩
    have hw : pendPrefix (s :: q) ++ b :: rest
        = pendPrefix ({ bytes := s.bytes, index := s.index + 1 } :: q)
          ++ rest := by
      simp only [pendPrefix]
      rw [take_succ_get h1]
      simp
    rw [hw]
    exact ihd
  | case5 s q b rest h1 h2 ih =>
    intro hz
    have hq0 : ∀ s' ∈ q, s'.index = 0 := hz
    obtain ⟨ihd, ihs, ihz⟩ := ih (tailZero_of_all q hq0)
    simp only [stripRun]
    rw [if_neg h1, if_pos h2]
    refine ⟨?_, by exact List.Sublist.cons s.bytes ihs, ihz⟩
    have hpq : pendPrefix q = [] := pend_zero q hq0
    rw [hpq] at ihd
    simp only [pendPrefix]
    exact dissect_prepend (s.bytes.take s.index) (by simpa using ihd)
  | case6 s q b rest h1 h2 ih =>
    intro hz
    have hq0 : ∀ s' ∈ q, s'.index = 0 := hz
    obtain ⟨ihd, ihs, ihz⟩ := ih (tailZero_of_all q hq0)
    simp only [stripRun]
    rw [if_neg h1, if_neg h2]
    refine ⟨?_, List.Sublist.cons s.bytes ihs, ihz⟩
    have hpq : pendPrefix q = [] := pend_zero q hq0
    rw [hpq] at ihd
    have hi0 : s.index = 0 := by omega
    simp only [pendPrefix, hi0, List.take_zero, List.nil_append]
    simpa using ihd

end Sandbox.Bun

namespace Sandbox.Bun

/-! ## Resize suppression on the pipe-fallback stream (claim C9) -/

/-- Witness for C10 on a concrete queue and chunk with a failed partial
match (the leading `a` is consumed, re-emitted on the `x` mismatch, and the
rest passes through). -/
theorem c10_strip_exact_witness :
    Dissect (pendPrefix [⟨['a', 'b'], 0⟩] ++ ['a', 'x', 'b'])
        (stripSuppressed [⟨['a', 'b'], 0⟩] ['a', 'x', 'b']).2
        (stripRun [⟨['a', 'b'], 0⟩] ['a', 'x', 'b']).completed
        (pendPrefix (stripSuppressed [⟨['a', 'b'], 0⟩] ['a', 'x', 'b']).1)
    ∧ List.Sublist (stripRun [⟨['a', 'b'], 0⟩] ['a', 'x', 'b']).completed
        ([⟨['a', 'b'], 0⟩].map Supp.bytes)
    ∧ TailZero (stripSuppressed [⟨['a', 'b'], 0⟩] ['a', 'x', 'b']).1 :=
  c10_strip_exact [⟨['a', 'b'], 0⟩] ['a', 'x', 'b']
    (by
      intro s hs
      exact absurd hs (List.not_mem_nil s))

theorem streamRun_append (q : List Supp) (t1 t2 : List StreamEvent) :
    streamRun q (t1 ++ t2)
      = ((streamRun (streamRun q t1).1 t2).1,
         (streamRun q t1).2 ++ (streamRun (streamRun q t1).1 t2).2) := by
  induction t1 generalizing q with
  | nil => simp [streamRun]
  | cons e es ih =>
    simp only [List.cons_append, streamRun]
    rw [show es.append t2 = es ++ t2 from rfl, ih (streamStep q e).1]
    simp [List.append_assoc]

theorem stripRun_consume_aux (suf : List Char) :
    ∀ (pre : List Char) (q : List Supp) (d : List Char), suf ≠ [] →
    stripRun (⟨pre ++ suf, pre.length⟩ :: q) (suf ++ d)
      = ⟨(stripRun q d).queue, (stripRun q d).out,
         (pre ++ suf) :: (stripRun q d).completed⟩ := by
  induction suf with
  | nil =>
    intro pre q d h
    exact absurd rfl h
  | cons b t ih =>
    intro pre q d _
    have hget : (pre ++ b :: t).get? pre.length = some b := by
      rw [List.get?_eq_getElem?]
      rw [List.getElem?_append_right (Nat.le_refl pre.length)]
      simp
    simp only [List.cons_append]
    by_cases ht : t = []
    · subst ht
      have hlen : pre.length + 1 = (pre ++ [b]).length := by simp
      simp only [stripRun]
      rw [if_pos hget, if_pos hlen]
      simp
    · have hlen : ¬ pre.length + 1 = (pre ++ b :: t).length := by
        simp only [List.length_append, List.length_cons]
        have : 0 < t.length := List.length_pos.mpr ht
        omega
      simp only [stripRun]
      rw [if_pos hget, if_neg hlen]
      have hrec := ih (pre ++ [b]) q d ht
      rw [show (pre ++ [b]) ++ t = pre ++ b :: t by simp,
          show (pre ++ [b]).length = pre.length + 1 by simp] at hrec
      rw [hrec]

theorem stripRun_consume (m : List Char) (q : List Supp) (d : List Char)
    (hm : m ≠ []) :
    stripRun (⟨m, 0⟩ :: q) (m ++ d)
      = ⟨(stripRun q d).queue, (stripRun q d).out,
         m :: (stripRun q d).completed⟩ := by
  have := stripRun_consume_aux m [] q d hm
  simpa using this

theorem rre_no_stty (t : List Char)
    (h : containsSeq ("stty cols".data) t = false) :
    removeResizeEcho t = t := by
  unfold removeResizeEcho
  split_ifs with h1 h2
  · rfl
  · rw [h] at h2
    simp at h2
  · rfl

theorem stripRun_drops_all (q : List Supp) (b : Char) (rest : List Char)
    (h : ∀ s ∈ q, s.index = 0 ∧ ¬ s.bytes.get? 0 = some b) :
    stripRun q (b :: rest) = ⟨[], b :: rest, []⟩ := by
  induction q with
  | nil => rw [stripRun_nil_queue]
  | cons s q ih =>
    obtain ⟨hi, hb⟩ := h s (by simp)
    simp only [stripRun]
    rw [if_neg (by rw [hi]; exact hb), if_neg (by simp [hi])]
    exact ih fun s' hs' => h s' (by simp [hs'])

/-- Amended claim C9: delivered bytes are monotone in the event trace, so a
resize affects only output processed after it (never retroactively); and
when the next output chunk after a resize echoes exactly the synthesized
command with its line terminators, the echo is stripped completely and only
the remainder of the chunk is delivered. The unconditional no-leak claim is
false (see the counterexample): consuming the queue with mismatching output
and splitting the echo across chunks delivers the command text. -/
theorem c9_amended_suppression :
    (∀ (q : List Supp) (t1 t2 : List StreamEvent),
      (streamRun q (t1 ++ t2)).2
        = (streamRun q t1).2 ++ (streamRun (streamRun q t1).1 t2).2)
    ∧ (∀ (c r : Option Int) (tail : List Char),
        containsSeq ("stty cols".data) tail = false →
        (streamRun []
          [.resize c r, .chunk (sttyCmd c r ++ '\r' :: '\n' :: tail)]).2
          = tail) := by
  constructor
  · intro q t1 t2
    rw [streamRun_append]
  · intro c r tail h
    have hcmd : sttyCmd c r ≠ [] := by
      simp [sttyCmd]
    have hq1 : streamStep [] (.resize c r)
        = ([⟨sttyCmd c r, 0⟩, ⟨['\r'], 0⟩, ⟨['\n'], 0⟩], []) := by
      simp [streamStep, queueSuppression]
    have hstrip : stripRun [⟨sttyCmd c r, 0⟩, ⟨['\r'], 0⟩, ⟨['\n'], 0⟩]
        (sttyCmd c r ++ '\r' :: '\n' :: tail)
        = ⟨[], tail, [sttyCmd c r, ['\r'], ['\n']]⟩ := by
      rw [show sttyCmd c r ++ '\r' :: '\n' :: tail
          = sttyCmd c r ++ (['\r'] ++ (['\n'] ++ tail)) by simp]
      rw [stripRun_consume _ _ _ hcmd]
      rw [stripRun_consume _ _ _ (by simp)]
      rw [stripRun_consume _ _ _ (by simp)]
      rw [stripRun_nil_queue]
    have hqq : queueSuppression
        (queueSuppression (queueSuppression [] (sttyCmd c r)) ['\r']) ['\n']
        = [⟨sttyCmd c r, 0⟩, ⟨['\r'], 0⟩, ⟨['\n'], 0⟩] := by
      simp [queueSuppression]
    simp only [streamRun, streamStep]
    rw [hqq, hstrip]
    simp [rre_no_stty tail h]

/-- Witness for the amended C9 at a concrete resize and clean tail. -/
theorem c9_amended_suppression_witness :
    ((streamRun [] ([StreamEvent.resize (some 80) (some 24)]
        ++ [StreamEvent.chunk ['y']])).2
      = (streamRun [] [StreamEvent.resize (some 80) (some 24)]).2
        ++ (streamRun
            (streamRun [] [StreamEvent.resize (some 80) (some 24)]).1
            [StreamEvent.chunk ['y']]).2)
    ∧ (streamRun []
        [.resize (some 80) (some 24),
         .chunk (sttyCmd (some 80) (some 24) ++ '\r' :: '\n' :: ('o' :: 'k' :: []))]).2
      = 'o' :: 'k' :: [] :=
  ⟨c9_amended_suppression.1 [] [StreamEvent.resize (some 80) (some 24)]
     [StreamEvent.chunk ['y']],
   c9_amended_suppression.2 (some 80) (some 24) ('o' :: 'k' :: [])
     (by decide)⟩

/-- Counterexample to claim C9 as stated: after a resize queues the
suppressions, a single mismatching byte of output consumes the whole queue;
the echoed command then arrives split across two chunks, each of which
evades the per-chunk `stty cols` scrub, so the client receives the
synthesized command text in full. -/
theorem c9_leak_counterexample :
    (streamRun []
      [.resize (some 80) (some 24),
       .chunk ['x'],
       .chunk "stty co".data,
       .chunk "ls 80 rows 24".data]).2
      = 'x' :: "stty cols 80 rows 24".data
    ∧ containsSeq (sttyCmd (some 80) (some 24))
        ('x' :: "stty cols 80 rows 24".data) = true := by
  constructor
  · have hqq : queueSuppression (queueSuppression
        (queueSuppression [] (sttyCmd (some 80) (some 24))) ['\r']) ['\n']
        = [⟨sttyCmd (some 80) (some 24), 0⟩, ⟨['\r'], 0⟩, ⟨['\n'], 0⟩] := by
      simp [queueSuppression]
    have hdrop : stripRun
        [⟨sttyCmd (some 80) (some 24), 0⟩, ⟨['\r'], 0⟩, ⟨['\n'], 0⟩] ['x']
        = ⟨[], ['x'], []⟩ := by
      apply stripRun_drops_all
      intro s hs
      rcases List.mem_cons.mp hs with h1 | hs
      · subst h1
        exact ⟨rfl, by decide⟩
      rcases List.mem_cons.mp hs with h1 | hs
      · subst h1
        exact ⟨rfl, by decide⟩
      rcases List.mem_cons.mp hs with h1 | hs
      · subst h1
        exact ⟨rfl, by decide⟩
      · exact absurd hs (List.not_mem_nil s)
    simp only [streamRun, streamStep]
    rw [hqq, hdrop, stripRun_nil_queue, stripRun_nil_queue]
    rw [rre_no_stty ['x'] (by decide),
        rre_no_stty ("stty co".data) (by decide),
        rre_no_stty ("ls 80 rows 24".data) (by decide)]
    decide
  · decide

end Sandbox.Bun
